import Mathlib

/-!
Verification of the geodesic equation-of-motion deriver (`src/metric.py`).

The program is a small sympy script: a `Metric` class holding a covariant
metric matrix `g`, its inverse `g_inv`, a coordinate list, four velocity
symbols `u0..u3`, and the eagerly computed geodesic right-hand sides; plus a
`getMetric` registry returning the Kerr and Schwarzschild presets.

The embedding below models sympy expressions with the tagged `Expression`
type from the specification, Python list / sympy matrix indexing (including
negative-index wrap-around and `IndexError`) with an `Except` monad, and the
external sympy services (`Matrix.inv`, symbolic differentiation) from the
specification text, since sympy itself is not part of the repository.
Value-level statements evaluate expressions at real-valued assignments of
the symbol names.
-/

namespace GeodesicEOM

/-- A symbolic scalar expression, the tagged value of the specification
data model: constants, named symbols, sums, products, powers, negation,
sine and cosine.  Constants are rationals: the only numeric literals the
program uses are integers and the float `1.0/2.0 = 0.5`, all exact. -/
inductive Expression where
  | Constant : ℚ → Expression
  | Symbol : String → Expression
  | Add : Expression → Expression → Expression
  | Mul : Expression → Expression → Expression
  | Pow : Expression → Expression → Expression
  | Neg : Expression → Expression
  | Sin : Expression → Expression
  | Cos : Expression → Expression
  deriving DecidableEq, Repr

/-- Value of an expression at an assignment of real values to symbol names.
Powers use the real power `Real.rpow`, which agrees with iterated
multiplication and with inversion at the integer exponents the program
uses. -/
noncomputable def eval (v : String → ℝ) : Expression → ℝ
  | .Constant q => (q : ℝ)
  | .Symbol s => v s
  | .Add a b => eval v a + eval v b
  | .Mul a b => eval v a * eval v b
  | .Pow b e => Real.rpow (eval v b) (eval v e)
  | .Neg a => -(eval v a)
  | .Sin a => Real.sin (eval v a)
  | .Cos a => Real.cos (eval v a)

/-- Modelled from the spec: symbolic partial differentiation
(`sympy.diff` is external to the repository).  The rules are the ones of
section 4.1 of the specification: constants and foreign symbols
differentiate to zero, sums termwise, products by the product rule,
powers with a constant exponent by the power rule, sine and cosine by the
chain rule.  The specification defines the power rule only for constant
exponents; no other exponent ever occurs in the program. -/
def differentiate (e : Expression) (x : String) : Expression :=
  match e with
  | .Constant _ => .Constant 0
  | .Symbol s => if s = x then .Constant 1 else .Constant 0
  | .Add a b => .Add (differentiate a x) (differentiate b x)
  | .Mul a b => .Add (.Mul (differentiate a x) b) (.Mul a (differentiate b x))
  | .Pow b (.Constant k) =>
      .Mul (.Mul (.Constant k) (.Pow b (.Constant (k - 1)))) (differentiate b x)
  | .Pow _ _ => .Constant 0
  | .Neg a => .Neg (differentiate a x)
  | .Sin a => .Mul (.Cos a) (differentiate a x)
  | .Cos a => .Neg (.Mul (.Sin a) (differentiate a x))

/-- The run-time failures of the script: sympy raises on inverting a
non-square or singular matrix, Python raises `IndexError` on out-of-range
sequence indices and `KeyError` on a failed dictionary lookup. -/
inductive Err where
  | nonSquare
  | nonInvertible
  | indexError
  | keyError
  deriving DecidableEq, Repr

/-- The effective index of a Python sequence access: a negative index
counts from the end of the sequence. -/
def pyWrap (len : Nat) (i : Int) : Int :=
  if i < 0 then (len : Int) + i else i

/-- The wrapped index as a natural number. -/
def pyIdx (len : Nat) (i : Int) : Nat := (pyWrap len i).toNat

/-- Python sequence indexing: a negative index `i` with `-len ≤ i` counts
from the end (`l[len + i]`); anything else out of `[-len, len)` raises
`IndexError`.  sympy matrices index the same way. -/
def pyGet (l : List α) (i : Int) : Except Err α :=
  if h : 0 ≤ pyWrap l.length i ∧ (pyWrap l.length i).toNat < l.length then
    .ok (l.get ⟨(pyWrap l.length i).toNat, h.2⟩)
  else .error .indexError

/-- Two-dimensional indexing `g[i, j]` of a matrix stored as rows. -/
def matGet (g : List (List α)) (i j : Int) : Except Err α := do
  let row ← pyGet g i
  pyGet row j

/-- Remove column `j` from every row. -/
def minorCol (j : Nat) (rows : List (List Expression)) : List (List Expression) :=
  rows.map (fun row => row.eraseIdx j)

/-- Modelled from the spec: the determinant of a symbolic matrix by
recursive Laplace cofactor expansion along the first row (sympy's
determinant is external to the repository).  The `fuel` argument bounds
the recursion depth by the row count so that the definition is structural
and executable. -/
def symDetF : Nat → List (List Expression) → Expression
  | _, [] => .Constant 1
  | _, [r] => r.headD (.Constant 0)
  | fuel + 1, r0 :: rest =>
      (List.range r0.length).foldr (fun j acc =>
        .Add (.Mul (.Mul (.Constant ((-1 : ℚ) ^ j)) (r0.getD j (.Constant 0)))
          (symDetF fuel (minorCol j rest))) acc) (.Constant 0)
  | 0, _ => .Constant 0

/-- Determinant of a symbolic matrix. -/
def symDet (g : List (List Expression)) : Expression := symDetF g.length g

/-- The minor of `g` with row `r` and column `c` removed. -/
def minorMat (g : List (List Expression)) (r c : Nat) : List (List Expression) :=
  (g.eraseIdx r).map (fun row => row.eraseIdx c)

/-- Modelled from the spec: entry `(i, j)` of the adjugate, the cofactor
`(j, i)`, i.e. the signed determinant of the minor with row `j` and
column `i` removed. -/
def adjugateEntry (g : List (List Expression)) (i j : Nat) : Expression :=
  .Mul (.Constant ((-1 : ℚ) ^ (i + j))) (symDet (minorMat g j i))

/-- Every row has as many entries as there are rows. -/
def isSquare (g : List (List Expression)) : Bool :=
  g.all (fun row => row.length = g.length)

/-- Modelled from the spec: sympy's `Matrix.inv`, which is external to the
repository.  It fails on a non-square matrix, fails with a singular-matrix
condition when the determinant is the zero expression, and otherwise
returns the adjugate divided by the determinant, entrywise. -/
def matInv (g : List (List Expression)) : Except Err (List (List Expression)) :=
  if ¬ isSquare g then .error .nonSquare
  else if symDet g = .Constant 0 then .error .nonInvertible
  else .ok ((List.range g.length).map (fun i => (List.range g.length).map (fun j =>
    .Mul (adjugateEntry g i j) (.Pow (symDet g) (.Constant (-1))))))

/-- The `Metric` class: covariant matrix, contravariant inverse,
coordinates, dimension, the four velocity symbols, and the cached geodesic
right-hand sides, exactly the attributes set by `Metric.__init__`. -/
structure Metric where
  g : List (List Expression)
  g_inv : List (List Expression)
  coordinates : List String
  dim : Nat
  velocities : List Expression
  geodesic_rhs : List Expression
  deriving DecidableEq, Repr

/-- `Metric.deriv`: differentiate `g[mu, nu]` with respect to
`coordinates[rho]`. -/
def Metric.deriv (m : Metric) (mu nu rho : Int) : Except Err Expression := do
  let e ← matGet m.g mu nu
  let c ← pyGet m.coordinates rho
  return differentiate e c

/-- `Metric.compute_christoffel`: the loop
`result += 1.0/2.0 * g_inv[mu, nu] * (deriv(nu, rho, sigma) +
deriv(nu, sigma, rho) - deriv(rho, sigma, nu))` over `nu` in
`range(dim)`, starting from `Float(0)`. -/
def Metric.compute_christoffel (m : Metric) (mu rho sigma : Int) :
    Except Err Expression :=
  (List.range m.dim).foldlM (fun result (nu : Nat) => do
    let a ← matGet m.g_inv mu (nu : Int)
    let d1 ← m.deriv (nu : Int) rho sigma
    let d2 ← m.deriv (nu : Int) sigma rho
    let d3 ← m.deriv rho sigma (nu : Int)
    return .Add result (.Mul (.Mul (.Constant (1/2)) a) (.Add (.Add d1 d2) (.Neg d3))))
    (.Constant 0)

/-- `Metric.compute_geodesic_rhs`: the double loop
`result -= compute_christoffel(mu, rho, sigma) * velocities[rho] *
velocities[sigma]` over `rho, sigma` in `range(dim)`. -/
def Metric.compute_geodesic_rhs (m : Metric) (mu : Int) : Except Err Expression :=
  (List.range m.dim).foldlM (fun result (rho : Nat) =>
    (List.range m.dim).foldlM (fun result (sigma : Nat) => do
      let c ← m.compute_christoffel mu (rho : Int) (sigma : Int)
      let vr ← pyGet m.velocities (rho : Int)
      let vs ← pyGet m.velocities (sigma : Int)
      return .Add result (.Neg (.Mul (.Mul c vr) vs)))
      result)
    (.Constant 0)

/-- `Metric.__init__`: invert `g`, record the coordinates, set
`dim = len(coordinates)`, create the four velocity symbols `u0..u3`, and
eagerly compute `geodesic_rhs[i]` for `i` in `range(dim)`.  The `mu`
argument of `compute_geodesic_rhs` reads only `g`, `g_inv`, `coordinates`,
`dim` and `velocities`, so the record `m0` with an empty cache plays the
role of `self` during construction. -/
def Metric.init (g : List (List Expression)) (coordinates : List String) :
    Except Err Metric := do
  let g_inv ← matInv g
  let dim := coordinates.length
  let velocities : List Expression :=
    [.Symbol "u0", .Symbol "u1", .Symbol "u2", .Symbol "u3"]
  let m0 : Metric := ⟨g, g_inv, coordinates, dim, velocities, []⟩
  let rhs ← (List.range dim).mapM (fun (i : Nat) => m0.compute_geodesic_rhs (i : Int))
  return { m0 with geodesic_rhs := rhs }

/-- Python subtraction of sympy expressions. -/
def esub (a b : Expression) : Expression := .Add a (.Neg b)

/-- Python division of sympy expressions, `a * b ** (-1)`. -/
def ediv (a b : Expression) : Expression := .Mul a (.Pow b (.Constant (-1)))

/-- Squaring, `a ** 2`. -/
def sq (a : Expression) : Expression := .Pow a (.Constant 2)

/-- The coordinate list `[t, r, theta, phi]` built in `getMetric`. -/
def coordinates4 : List String := ["t", "r", "theta", "phi"]

/-- `sigma = r**2 + a**2*cos(theta)**2`. -/
def sigmaKerr : Expression :=
  .Add (sq (.Symbol "r")) (.Mul (sq (.Symbol "a")) (sq (.Cos (.Symbol "theta"))))

/-- `delta = r**2 - 2*M*r + a**2`. -/
def deltaKerr : Expression :=
  .Add (esub (sq (.Symbol "r"))
      (.Mul (.Mul (.Constant 2) (.Symbol "M")) (.Symbol "r")))
    (sq (.Symbol "a"))

/-- The Kerr metric matrix of `getMetric`. -/
def kerrMatrix : List (List Expression) :=
  let r : Expression := .Symbol "r"
  let theta : Expression := .Symbol "theta"
  let M : Expression := .Symbol "M"
  let a : Expression := .Symbol "a"
  [[.Neg (esub (.Constant 1) (ediv (.Mul (.Mul (.Constant 2) M) r) sigmaKerr)),
    .Constant 0, .Constant 0,
    .Mul (ediv (.Mul (.Mul (.Mul (.Constant (-2)) a) M) r) sigmaKerr) (sq (.Sin theta))],
   [.Constant 0, ediv sigmaKerr deltaKerr, .Constant 0, .Constant 0],
   [.Constant 0, .Constant 0, sigmaKerr, .Constant 0],
   [.Mul (ediv (.Mul (.Mul (.Mul (.Constant (-2)) a) M) r) sigmaKerr) (sq (.Sin theta)),
    .Constant 0, .Constant 0,
    .Mul (.Add (.Add (sq r) (sq a))
        (.Mul (ediv (.Mul (.Mul (.Mul (.Constant 2) M) r) (sq a)) sigmaKerr)
          (sq (.Sin theta))))
      (sq (.Sin theta))]]

/-- The Schwarzschild metric matrix of `getMetric`. -/
def schwarzschildMatrix : List (List Expression) :=
  let r : Expression := .Symbol "r"
  let theta : Expression := .Symbol "theta"
  let M : Expression := .Symbol "M"
  [[.Neg (esub (.Constant 1) (ediv (.Mul (.Constant 2) M) r)),
    .Constant 0, .Constant 0, .Constant 0],
   [.Constant 0, .Pow (esub (.Constant 1) (ediv (.Mul (.Constant 2) M) r)) (.Constant (-1)),
    .Constant 0, .Constant 0],
   [.Constant 0, .Constant 0, sq r, .Constant 0],
   [.Constant 0, .Constant 0, .Constant 0, .Mul (sq r) (sq (.Sin theta))]]

/-- The free-symbol list returned for the Kerr preset. -/
def kerrSymbols : List Expression :=
  [.Symbol "t", .Symbol "r", .Symbol "theta", .Symbol "phi", .Symbol "M", .Symbol "a"]

/-- The free-symbol list returned for the Schwarzschild preset. -/
def schwarzschildSymbols : List Expression :=
  [.Symbol "t", .Symbol "r", .Symbol "theta", .Symbol "phi", .Symbol "M"]

/-- The body of `getMetric`, with the two metric matrices abstracted:
both Metric objects are constructed first, then the requested name is
looked up in the dictionary. -/
def getMetricWith (g1 g2 : List (List Expression)) (name : String) :
    Except Err (Metric × List Expression) := do
  let kerr ← Metric.init g1 coordinates4
  let schwarzschild ← Metric.init g2 coordinates4
  if name = "kerr" then return (kerr, kerrSymbols)
  else if name = "schwarzschild" then return (schwarzschild, schwarzschildSymbols)
  else .error .keyError

/-- `getMetric`: build the Kerr and the Schwarzschild Metric, then look the
requested name up in the dictionary, raising `KeyError` for any other
name. -/
def getMetric (name : String) : Except Err (Metric × List Expression) :=
  getMetricWith kerrMatrix schwarzschildMatrix name

/-! ### Basic facts about the `Except` monad and Python indexing -/

@[simp] theorem ok_bind {α β : Type} (a : α) (f : α → Except Err β) :
    (Except.ok a >>= f) = f a := rfl

@[simp] theorem error_bind {α β : Type} (e : Err) (f : α → Except Err β) :
    ((Except.error e : Except Err α) >>= f) = .error e := rfl

@[simp] theorem pure_eq_ok {α : Type} (a : α) :
    (pure a : Except Err α) = .ok a := rfl

theorem pyIdx_lt (len : Nat) (i : Int) (h0 : -(len : Int) ≤ i)
    (h1 : i < (len : Int)) : pyIdx len i < len := by
  unfold pyIdx pyWrap
  split <;> omega

theorem pyGet_ok (l : List α) (i : Int) (h0 : -(l.length : Int) ≤ i)
    (h1 : i < (l.length : Int)) :
    pyGet l i = .ok (l.get ⟨pyIdx l.length i, pyIdx_lt l.length i h0 h1⟩) := by
  unfold pyGet
  rw [dif_pos ⟨by unfold pyWrap; split <;> omega, pyIdx_lt l.length i h0 h1⟩]
  rfl

theorem pyGet_err (l : List α) (i : Int)
    (h : i < -(l.length : Int) ∨ (l.length : Int) ≤ i) :
    pyGet l i = .error .indexError := by
  unfold pyGet
  rw [dif_neg]
  intro hc
  unfold pyWrap at hc
  rcases hc with ⟨hc0, hc1⟩
  rcases h with h | h <;> (split at hc0 <;> omega)

theorem pyGet_ok_bounds {l : List α} {i : Int} {y : α} (h : pyGet l i = .ok y) :
    -(l.length : Int) ≤ i ∧ i < (l.length : Int) := by
  by_contra hc
  rw [pyGet_err l i (by omega)] at h
  exact Except.noConfusion h

theorem pyIdx_ofNat (len k : Nat) : pyIdx len (k : Int) = k := by
  unfold pyIdx pyWrap
  rw [if_neg (by omega)]
  omega

theorem pyGet_ofNat (l : List α) (k : Nat) (hk : k < l.length) (d : α) :
    pyGet l (k : Int) = .ok (l.getD k d) := by
  have h2 : pyIdx l.length (k : Int) = k := pyIdx_ofNat l.length k
  rw [pyGet_ok l (k : Int) (by omega) (by omega), List.getD_eq_getElem l d hk]
  simp only [List.get_eq_getElem]
  congr 1

/-! ### Success and failure of `Except`-valued folds and maps -/

theorem foldlM_ok_of_steps {α σ : Type} (f : σ → α → Except Err σ) (r : σ → α → σ)
    (l : List α) (h : ∀ acc x, x ∈ l → f acc x = .ok (r acc x)) :
    ∀ init : σ, l.foldlM f init = .ok (l.foldl r init) := by
  induction l with
  | nil => intro init; rfl
  | cons x xs ih =>
    intro init
    rw [List.foldlM_cons, h init x (by simp), ok_bind, List.foldl_cons]
    exact ih (fun acc y hy => h acc y (by simp [hy])) (r init x)

theorem foldlM_mem_ok {α σ : Type} {f : σ → α → Except Err σ} {l : List α}
    {out : σ} :
    ∀ {init : σ}, l.foldlM f init = .ok out → ∀ x ∈ l, ∃ acc y, f acc x = .ok y := by
  induction l with
  | nil => intro init _ x hx; exact absurd hx (List.not_mem_nil x)
  | cons a xs ih =>
    intro init h x hx
    rw [List.foldlM_cons] at h
    cases hf : f init a with
    | error e => rw [hf] at h; exact Except.noConfusion h
    | ok b =>
      rw [hf, ok_bind] at h
      rcases List.mem_cons.mp hx with rfl | hx
      · exact ⟨init, b, hf⟩
      · exact ih h x hx

theorem foldlM_err_at {α σ : Type} (f : σ → α → Except Err σ) (r : σ → α → σ)
    (l1 : List α) (y : α) (l2 : List α) (e : Err)
    (hl1 : ∀ acc x, x ∈ l1 → f acc x = .ok (r acc x))
    (hy : ∀ acc, f acc y = .error e) :
    ∀ init : σ, (l1 ++ y :: l2).foldlM f init = .error e := by
  induction l1 with
  | nil => intro init; rw [List.nil_append, List.foldlM_cons, hy init, error_bind]
  | cons a xs ih =>
    intro init
    rw [List.cons_append, List.foldlM_cons, hl1 init a (by simp), ok_bind]
    exact ih (fun acc x hx => hl1 acc x (by simp [hx])) (r init a)

theorem mapM_ok_of_steps {α β : Type} (f : α → Except Err β) (r : α → β)
    (l : List α) (h : ∀ x ∈ l, f x = .ok (r x)) :
    l.mapM f = .ok (l.map r) := by
  induction l with
  | nil => rfl
  | cons x xs ih =>
    rw [List.mapM_cons, h x (by simp), ok_bind,
      ih (fun y hy => h y (by simp [hy])), ok_bind, List.map_cons]
    rfl

theorem mapM_mem_ok {α β : Type} {f : α → Except Err β} {l : List α}
    {out : List β} (h : l.mapM f = .ok out) : ∀ x ∈ l, ∃ y, f x = .ok y := by
  induction l generalizing out with
  | nil => intro x hx; exact absurd hx (List.not_mem_nil x)
  | cons a xs ih =>
    intro x hx
    rw [List.mapM_cons] at h
    cases hf : f a with
    | error e => rw [hf] at h; exact Except.noConfusion h
    | ok b =>
      rw [hf, ok_bind] at h
      cases hm : xs.mapM f with
      | error e => rw [hm] at h; exact Except.noConfusion h
      | ok bs =>
        rcases List.mem_cons.mp hx with rfl | hx
        · exact ⟨b, hf⟩
        · exact ih hm x hx

theorem mapM_err_head {α β : Type} (f : α → Except Err β) (a : α) (l : List α)
    (e : Err) (ha : f a = .error e) : (a :: l).mapM f = .error e := by
  rw [List.mapM_cons, ha, error_bind]

/-! ### Inverting successful construction -/

theorem matInv_ok_elim {g gi : List (List Expression)} (h : matInv g = .ok gi) :
    isSquare g = true ∧ symDet g ≠ .Constant 0 ∧
    gi = (List.range g.length).map (fun i => (List.range g.length).map (fun j =>
      .Mul (adjugateEntry g i j) (.Pow (symDet g) (.Constant (-1))))) := by
  unfold matInv at h
  split at h
  · exact Except.noConfusion h
  · split at h
    · exact Except.noConfusion h
    · rename_i h1 h2
      exact ⟨by simpa using h1, h2, (Except.ok.inj h).symm⟩

theorem isSquare_rows {g : List (List Expression)} (h : isSquare g = true) :
    ∀ row ∈ g, row.length = g.length := by
  intro row hrow
  have := (List.all_eq_true.mp h) row hrow
  simpa using this

/-- The four velocity symbols created by the constructor. -/
def velocities4 : List Expression :=
  [.Symbol "u0", .Symbol "u1", .Symbol "u2", .Symbol "u3"]

theorem init_ok_elim {g : List (List Expression)} {coords : List String}
    {m : Metric} (h : Metric.init g coords = .ok m) :
    matInv g = .ok m.g_inv ∧ m.g = g ∧ m.coordinates = coords ∧
    m.dim = coords.length ∧ m.velocities = velocities4 ∧
    (List.range coords.length).mapM (fun (i : Nat) =>
      Metric.compute_geodesic_rhs
        ⟨g, m.g_inv, coords, coords.length, velocities4, []⟩ (i : Int)) =
      .ok m.geodesic_rhs := by
  unfold Metric.init at h
  cases hinv : matInv g with
  | error e => rw [hinv, error_bind] at h; exact Except.noConfusion h
  | ok gi =>
    rw [hinv, ok_bind] at h
    dsimp only [] at h
    cases hmap : (List.range coords.length).mapM (fun (i : Nat) =>
        Metric.compute_geodesic_rhs
          ⟨g, gi, coords, coords.length, velocities4, []⟩ (i : Int)) with
    | error e =>
      rw [show velocities4 =
          [.Symbol "u0", .Symbol "u1", .Symbol "u2", .Symbol "u3"] from rfl] at hmap
      rw [hmap, error_bind] at h
      exact Except.noConfusion h
    | ok rhs =>
      rw [show velocities4 =
          [.Symbol "u0", .Symbol "u1", .Symbol "u2", .Symbol "u3"] from rfl] at hmap
      rw [hmap, ok_bind, pure_eq_ok] at h
      have h2 := (Except.ok.inj h).symm
      subst h2
      refine ⟨rfl, rfl, rfl, rfl, rfl, ?_⟩
      exact hmap

/-- `compute_geodesic_rhs` reads only the first five fields of the record,
so two Metrics agreeing on them compute the same right-hand sides. -/
theorem compute_geodesic_rhs_fields {m1 m2 : Metric} (hg : m1.g = m2.g)
    (hgi : m1.g_inv = m2.g_inv) (hc : m1.coordinates = m2.coordinates)
    (hd : m1.dim = m2.dim) (hv : m1.velocities = m2.velocities) :
    m1.compute_geodesic_rhs = m2.compute_geodesic_rhs := by
  funext mu
  unfold Metric.compute_geodesic_rhs Metric.compute_christoffel Metric.deriv
  rw [hg, hgi, hc, hd, hv]

theorem init_ok_mapM {g : List (List Expression)} {coords : List String}
    {m : Metric} (h : Metric.init g coords = .ok m) :
    (List.range m.dim).mapM (fun (i : Nat) => m.compute_geodesic_rhs (i : Int)) =
      .ok m.geodesic_rhs := by
  obtain ⟨hinv, hg, hc, hd, hv, hmap⟩ := init_ok_elim h
  have he : Metric.compute_geodesic_rhs
      ⟨g, m.g_inv, coords, coords.length, velocities4, []⟩ =
      m.compute_geodesic_rhs := by
    apply compute_geodesic_rhs_fields <;> simp [hg, hc, hd, hv]
  rw [hd]
  rw [he] at hmap
  exact hmap

theorem bind_ok_elim {α β : Type} {x : Except Err α} {f : α → Except Err β}
    {y : β} (h : (x >>= f) = .ok y) : ∃ a, x = .ok a ∧ f a = .ok y := by
  cases x with
  | error e => rw [error_bind] at h; exact Except.noConfusion h
  | ok a => exact ⟨a, rfl, h⟩

theorem init_ok_bounds {g : List (List Expression)} {coords : List String}
    {m : Metric} (h : Metric.init g coords = .ok m) (hpos : 0 < m.dim) :
    m.dim ≤ m.g.length ∧ m.dim ≤ 4 := by
  have hmap := init_ok_mapM h
  have hvl : m.velocities.length = 4 := by
    obtain ⟨_, _, _, _, hv, _⟩ := init_ok_elim h
    rw [hv]; rfl
  -- the first geodesic component was computed successfully
  obtain ⟨y0, hy0⟩ := mapM_mem_ok hmap 0 (List.mem_range.mpr hpos)
  unfold Metric.compute_geodesic_rhs at hy0
  have houter := foldlM_mem_ok hy0
  -- every velocity lookup velocities[rho] with rho < dim succeeded
  have hvel : ∀ rho : Nat, rho < m.dim → (rho : Int) < (m.velocities.length : Int) := by
    intro rho hrho
    obtain ⟨acc, y, hy⟩ := houter rho (List.mem_range.mpr hrho)
    obtain ⟨acc2, y2, hy2⟩ := foldlM_mem_ok hy 0 (List.mem_range.mpr hpos)
    obtain ⟨c, hc, hy3⟩ := bind_ok_elim hy2
    obtain ⟨vr, hvr, _⟩ := bind_ok_elim hy3
    exact (pyGet_ok_bounds hvr).2
  -- every matrix row access g[nu, 0] with nu < dim succeeded
  have hrows : ∀ nu : Nat, nu < m.dim → (nu : Int) < (m.g.length : Int) := by
    intro nu hnu'
    obtain ⟨acc, y, hy⟩ := houter 0 (List.mem_range.mpr hpos)
    obtain ⟨acc2, y2, hy2⟩ := foldlM_mem_ok hy 0 (List.mem_range.mpr hpos)
    obtain ⟨c, hc, _⟩ := bind_ok_elim hy2
    unfold Metric.compute_christoffel at hc
    obtain ⟨a3, y3, hy3⟩ := foldlM_mem_ok hc nu (List.mem_range.mpr hnu')
    obtain ⟨a, ha, hy4⟩ := bind_ok_elim hy3
    obtain ⟨d1, hd1, _⟩ := bind_ok_elim hy4
    unfold Metric.deriv at hd1
    obtain ⟨e, he, _⟩ := bind_ok_elim hd1
    unfold matGet at he
    obtain ⟨row, hrow, _⟩ := bind_ok_elim he
    exact (pyGet_ok_bounds hrow).2
  constructor
  · have := hrows (m.dim - 1) (by omega)
    omega
  · have := hvel (m.dim - 1) (by omega)
    omega

/-! ### Total descriptions of the computed expressions

For in-range indices the `Except`-valued methods return expressions that
the following total functions describe. -/

/-- Entry `(i, j)` of a matrix, at plain natural indices. -/
def entryD (g : List (List Expression)) (i j : Nat) : Expression :=
  (g.getD i []).getD j (.Constant 0)

/-- Entry of a matrix at Python-wrapped integer indices. -/
def entryAt (g : List (List Expression)) (i j : Int) : Expression :=
  let row := g.getD (pyIdx g.length i) []
  row.getD (pyIdx row.length j) (.Constant 0)

theorem entryAt_ofNat (g : List (List Expression)) (i j : Nat) :
    entryAt g (i : Int) (j : Int) = entryD g i j := by
  unfold entryAt entryD
  dsimp only
  rw [pyIdx_ofNat, pyIdx_ofNat]

theorem pyGet_getD (l : List α) (i : Int) (d : α) (h0 : -(l.length : Int) ≤ i)
    (h1 : i < (l.length : Int)) :
    pyGet l i = .ok (l.getD (pyIdx l.length i) d) := by
  rw [pyGet_ok l i h0 h1, List.getD_eq_getElem l d (pyIdx_lt l.length i h0 h1)]
  simp only [List.get_eq_getElem]

theorem matGet_ok (g : List (List Expression)) (i j : Int)
    (hi0 : -(g.length : Int) ≤ i) (hi1 : i < (g.length : Int))
    (hj0 : -((g.getD (pyIdx g.length i) []).length : Int) ≤ j)
    (hj1 : j < ((g.getD (pyIdx g.length i) []).length : Int)) :
    matGet g i j = .ok (entryAt g i j) := by
  unfold matGet entryAt
  rw [pyGet_getD g i [] hi0 hi1, ok_bind,
    pyGet_getD (g.getD (pyIdx g.length i) []) j (.Constant 0) hj0 hj1]

/-- The structural facts about a successfully constructed Metric that make
every in-range lookup succeed. -/
structure WF (m : Metric) : Prop where
  sq : ∀ row ∈ m.g, row.length = m.g.length
  gi_len : m.g_inv.length = m.g.length
  gi_rows : ∀ row ∈ m.g_inv, row.length = m.g.length
  coords_len : m.coordinates.length = m.dim
  dim_le : m.dim ≤ m.g.length
  vel_len : m.velocities.length = 4
  dim_le4 : m.dim ≤ 4

theorem init_wf {g : List (List Expression)} {coords : List String} {m : Metric}
    (h : Metric.init g coords = .ok m) : WF m := by
  obtain ⟨hinv, hg, hc, hd, hv, _⟩ := init_ok_elim h
  obtain ⟨hsq, _, hgi⟩ := matInv_ok_elim hinv
  have hgil : m.g_inv.length = m.g.length := by
    rw [hgi, hg]; simp
  have hgir : ∀ row ∈ m.g_inv, row.length = m.g.length := by
    intro row hrow
    rw [hgi] at hrow
    obtain ⟨i, _, rfl⟩ := List.mem_map.mp hrow
    rw [hg]; simp
  have hvl : m.velocities.length = 4 := by rw [hv]; rfl
  rcases Nat.eq_zero_or_pos m.dim with hz | hpos
  · exact ⟨fun row hrow => by rw [hg] at hrow ⊢; exact isSquare_rows hsq row hrow,
      hgil, hgir, by rw [hc, ← hd], by omega, hvl, by omega⟩
  · obtain ⟨hle, hle4⟩ := init_ok_bounds h hpos
    exact ⟨fun row hrow => by rw [hg] at hrow ⊢; exact isSquare_rows hsq row hrow,
      hgil, hgir, by rw [hc, ← hd], hle, hvl, hle4⟩

/-- The expression returned by a successful `deriv` call. -/
def derivT (m : Metric) (mu nu rho : Int) : Expression :=
  differentiate (entryAt m.g mu nu)
    (m.coordinates.getD (pyIdx m.coordinates.length rho) "")

theorem deriv_ok (m : Metric) (hwf : WF m) (mu nu rho : Int)
    (hmu0 : -(m.g.length : Int) ≤ mu) (hmu1 : mu < (m.g.length : Int))
    (hnu0 : -(m.g.length : Int) ≤ nu) (hnu1 : nu < (m.g.length : Int))
    (hrho0 : -(m.dim : Int) ≤ rho) (hrho1 : rho < (m.dim : Int)) :
    m.deriv mu nu rho = .ok (derivT m mu nu rho) := by
  unfold Metric.deriv derivT
  have hside : 0 < m.g.length := by omega
  have hrowlen : (m.g.getD (pyIdx m.g.length mu) []).length = m.g.length := by
    apply hwf.sq
    rw [List.getD_eq_getElem m.g [] (pyIdx_lt m.g.length mu hmu0 hmu1)]
    exact List.getElem_mem _
  rw [matGet_ok m.g mu nu hmu0 hmu1 (by rw [hrowlen]; exact hnu0)
    (by rw [hrowlen]; exact hnu1), ok_bind,
    pyGet_getD m.coordinates rho ""
      (by rw [hwf.coords_len]; exact hrho0) (by rw [hwf.coords_len]; exact hrho1),
    ok_bind]
  rfl

/-- The expression returned by a successful `compute_christoffel` call. -/
def christoffelT (m : Metric) (mu rho sigma : Int) : Expression :=
  (List.range m.dim).foldl (fun result (nu : Nat) =>
    .Add result (.Mul (.Mul (.Constant (1/2)) (entryAt m.g_inv mu (nu : Int)))
      (.Add (.Add (derivT m (nu : Int) rho sigma) (derivT m (nu : Int) sigma rho))
        (.Neg (derivT m rho sigma (nu : Int)))))) (.Constant 0)

theorem compute_christoffel_ok (m : Metric) (hwf : WF m) (mu rho sigma : Int)
    (hmu0 : -(m.g.length : Int) ≤ mu) (hmu1 : mu < (m.g.length : Int))
    (hrho0 : -(m.dim : Int) ≤ rho) (hrho1 : rho < (m.dim : Int))
    (hsig0 : -(m.dim : Int) ≤ sigma) (hsig1 : sigma < (m.dim : Int)) :
    m.compute_christoffel mu rho sigma = .ok (christoffelT m mu rho sigma) := by
  unfold Metric.compute_christoffel christoffelT
  apply foldlM_ok_of_steps
  intro acc nu hnu
  have hnud : nu < m.dim := List.mem_range.mp hnu
  have hdim_le : m.dim ≤ m.g.length := hwf.dim_le
  have hginvrow : (m.g_inv.getD (pyIdx m.g_inv.length mu) []).length = m.g.length := by
    apply hwf.gi_rows
    rw [List.getD_eq_getElem m.g_inv []
      (pyIdx_lt m.g_inv.length mu (by rw [hwf.gi_len]; exact hmu0)
        (by rw [hwf.gi_len]; exact hmu1))]
    exact List.getElem_mem _
  rw [matGet_ok m.g_inv mu (nu : Int)
      (by rw [hwf.gi_len]; exact hmu0) (by rw [hwf.gi_len]; exact hmu1)
      (by rw [hginvrow]; omega) (by rw [hginvrow]; omega), ok_bind,
    deriv_ok m hwf (nu : Int) rho sigma (by omega) (by omega)
      (by omega) (by omega) hsig0 hsig1, ok_bind,
    deriv_ok m hwf (nu : Int) sigma rho (by omega) (by omega)
      (by omega) (by omega) hrho0 hrho1, ok_bind,
    deriv_ok m hwf rho sigma (nu : Int) (by omega) (by omega)
      (by omega) (by omega) (by omega) (by omega), ok_bind]
  rfl

/-- The expression returned by a successful `compute_geodesic_rhs` call. -/
def geodesicT (m : Metric) (mu : Int) : Expression :=
  (List.range m.dim).foldl (fun result (rho : Nat) =>
    (List.range m.dim).foldl (fun result (sigma : Nat) =>
      .Add result (.Neg (.Mul (.Mul (christoffelT m mu (rho : Int) (sigma : Int))
        (m.velocities.getD rho (.Constant 0)))
        (m.velocities.getD sigma (.Constant 0)))))
      result) (.Constant 0)

theorem compute_geodesic_rhs_ok (m : Metric) (hwf : WF m) (mu : Int)
    (hmu0 : -(m.g.length : Int) ≤ mu) (hmu1 : mu < (m.g.length : Int)) :
    m.compute_geodesic_rhs mu = .ok (geodesicT m mu) := by
  unfold Metric.compute_geodesic_rhs geodesicT
  apply foldlM_ok_of_steps
  intro acc rho hrho
  have hrhod : rho < m.dim := List.mem_range.mp hrho
  apply foldlM_ok_of_steps
  intro acc2 sigma hsig
  have hsigd : sigma < m.dim := List.mem_range.mp hsig
  have h4 : m.dim ≤ 4 := hwf.dim_le4
  rw [compute_christoffel_ok m hwf mu (rho : Int) (sigma : Int) hmu0 hmu1
      (by omega) (by omega) (by omega) (by omega), ok_bind,
    pyGet_ofNat m.velocities rho (by rw [hwf.vel_len]; omega) (.Constant 0), ok_bind,
    pyGet_ofNat m.velocities sigma (by rw [hwf.vel_len]; omega) (.Constant 0), ok_bind]
  rfl

/-- The cached geodesic right-hand sides are exactly the `geodesicT`
expressions, one per coordinate. -/
theorem init_ok_geodesics {g : List (List Expression)} {coords : List String}
    {m : Metric} (h : Metric.init g coords = .ok m) :
    m.geodesic_rhs = (List.range m.dim).map (fun (i : Nat) => geodesicT m (i : Int)) := by
  have hmap := init_ok_mapM h
  have hwf := init_wf h
  rw [mapM_ok_of_steps _ (fun (i : Nat) => geodesicT m (i : Int)) _
    (fun i hi => compute_geodesic_rhs_ok m hwf (i : Int)
      (by omega) (by have := List.mem_range.mp hi; have := hwf.dim_le; omega))] at hmap
  exact (Except.ok.inj hmap).symm

/-! ### Values of the computed expressions -/

theorem eval_foldl_add (v : String → ℝ) (t : Nat → Expression) :
    ∀ (n : Nat) (init : Expression),
      eval v ((List.range n).foldl (fun acc k => .Add acc (t k)) init) =
        eval v init + ∑ k in Finset.range n, eval v (t k) := by
  intro n
  induction n with
  | zero => intro init; simp
  | succ n ih =>
    intro init
    rw [List.range_succ, List.foldl_append]
    simp only [List.foldl_cons, List.foldl_nil]
    simp only [eval]
    rw [ih init, Finset.sum_range_succ]
    ring

theorem eval_foldl_add2 (v : String → ℝ) (u : Nat → Nat → Expression) (n2 : Nat) :
    ∀ (n : Nat) (init : Expression),
      eval v ((List.range n).foldl (fun acc r =>
          (List.range n2).foldl (fun acc2 s => .Add acc2 (u r s)) acc) init) =
        eval v init + ∑ r in Finset.range n, ∑ s in Finset.range n2, eval v (u r s) := by
  intro n
  induction n with
  | zero => intro init; simp
  | succ n ih =>
    intro init
    rw [List.range_succ, List.foldl_append]
    simp only [List.foldl_cons, List.foldl_nil]
    rw [eval_foldl_add v (u n) n2, ih init, Finset.sum_range_succ]
    ring

theorem eval_christoffelT (m : Metric) (mu rho sigma : Int) (v : String → ℝ) :
    eval v (christoffelT m mu rho sigma) =
      ∑ nu in Finset.range m.dim, (1/2 : ℝ) *
        eval v (entryAt m.g_inv mu (nu : Int)) *
        (eval v (derivT m (nu : Int) rho sigma) + eval v (derivT m (nu : Int) sigma rho)
          - eval v (derivT m rho sigma (nu : Int))) := by
  unfold christoffelT
  have hfold := eval_foldl_add v (fun nu =>
    .Mul (.Mul (.Constant (1/2)) (entryAt m.g_inv mu (nu : Int)))
      (.Add (.Add (derivT m (nu : Int) rho sigma) (derivT m (nu : Int) sigma rho))
        (.Neg (derivT m rho sigma (nu : Int))))) m.dim (.Constant 0)
  rw [hfold]
  simp only [eval]
  rw [show ((0 : ℚ) : ℝ) = 0 by norm_num, zero_add]
  refine Finset.sum_congr rfl fun k hk => ?_
  push_cast
  ring

theorem eval_geodesicT (m : Metric) (mu : Int) (v : String → ℝ) :
    eval v (geodesicT m mu) =
      -∑ rho in Finset.range m.dim, ∑ sigma in Finset.range m.dim,
        eval v (christoffelT m mu (rho : Int) (sigma : Int)) *
          eval v (m.velocities.getD rho (.Constant 0)) *
          eval v (m.velocities.getD sigma (.Constant 0)) := by
  unfold geodesicT
  have hfold := eval_foldl_add2 v (fun rho sigma =>
    .Neg (.Mul (.Mul (christoffelT m mu (rho : Int) (sigma : Int))
      (m.velocities.getD rho (.Constant 0)))
      (m.velocities.getD sigma (.Constant 0)))) m.dim m.dim (.Constant 0)
  rw [hfold]
  simp only [eval]
  rw [show ((0 : ℚ) : ℝ) = 0 by norm_num, zero_add]
  simp only [← Finset.sum_neg_distrib]

theorem getD_map_range {α : Type} (f : Nat → α) (n k : Nat) (hk : k < n) (d : α) :
    ((List.range n).map f).getD k d = f k := by
  rw [List.getD_eq_getElem _ d (by simpa using hk)]
  simp

/-! ### A small concrete metric used to witness the theorems.

`demoG` is diagonal with entries `1` and `x` over coordinates `x, y`;
its determinant is not the zero expression, so construction succeeds. -/

def demoG : List (List Expression) :=
  [[.Constant 1, .Constant 0], [.Constant 0, .Symbol "x"]]

def demoCoords : List String := ["x", "y"]

def demoMetric : Metric :=
  (Metric.init demoG demoCoords).toOption.getD ⟨[], [], [], 0, [], []⟩

theorem derivT_ofNat (m : Metric) (mu nu rho : Nat) :
    derivT m (mu : Int) (nu : Int) (rho : Int) =
      differentiate (entryD m.g mu nu) (m.coordinates.getD rho "") := by
  unfold derivT
  rw [entryAt_ofNat, pyIdx_ofNat]

/-- The right-hand side of the specification's Christoffel formula
`Γ^μ_{ρσ} = (1/2) Σ_ν g_inv[μ,ν] · (∂_ρ g[ν,σ] + ∂_σ g[ν,ρ] − ∂_ν g[ρ,σ])`
with `∂_k X = differentiate(X, coordinates[k])`, as a value at `v`. -/
noncomputable def christoffelSpecRHS (m : Metric) (mu rho sigma : Nat)
    (v : String → ℝ) : ℝ :=
  (1/2 : ℝ) * ∑ nu in Finset.range m.dim,
    eval v (entryD m.g_inv mu nu) *
      (eval v (differentiate (entryD m.g nu sigma) (m.coordinates.getD rho ""))
        + eval v (differentiate (entryD m.g nu rho) (m.coordinates.getD sigma ""))
        - eval v (differentiate (entryD m.g rho sigma) (m.coordinates.getD nu "")))

/-- C1: for every successfully constructed Metric and all indices
`mu, rho, sigma` in `[0, dim)`, `compute_christoffel(mu, rho, sigma)`
returns an Expression equal in value, at every assignment of the symbols,
to `(1/2) Σ_ν g_inv[μ,ν] · (∂_ρ g[ν,σ] + ∂_σ g[ν,ρ] − ∂_ν g[ρ,σ])` where
`∂_k X` is `differentiate(X, coordinates[k])`. -/
theorem christoffel_formula {g : List (List Expression)} {coords : List String}
    {m : Metric} (h : Metric.init g coords = .ok m)
    (mu rho sigma : Nat) (hmu : mu < m.dim) (hrho : rho < m.dim)
    (hsig : sigma < m.dim) :
    ∃ e, m.compute_christoffel (mu : Int) (rho : Int) (sigma : Int) = .ok e ∧
      ∀ v : String → ℝ, eval v e = christoffelSpecRHS m mu rho sigma v := by
  have hwf := init_wf h
  have hd := hwf.dim_le
  refine ⟨christoffelT m (mu : Int) (rho : Int) (sigma : Int),
    compute_christoffel_ok m hwf _ _ _ (by omega) (by omega) (by omega)
      (by omega) (by omega) (by omega), ?_⟩
  intro v
  rw [eval_christoffelT]
  unfold christoffelSpecRHS
  rw [Finset.mul_sum]
  refine Finset.sum_congr rfl fun nu hnu => ?_
  rw [entryAt_ofNat, derivT_ofNat, derivT_ofNat, derivT_ofNat]
  ring

/-- Witness for C1 at the concrete diagonal metric `demoG`. -/
theorem christoffel_formula_witness :
    ∃ e, demoMetric.compute_christoffel ((0 : Nat) : Int) ((0 : Nat) : Int)
        ((1 : Nat) : Int) = .ok e ∧
      ∀ v : String → ℝ, eval v e = christoffelSpecRHS demoMetric 0 0 1 v :=
  christoffel_formula (show Metric.init demoG demoCoords = .ok demoMetric from rfl)
    0 0 1 (by decide) (by decide) (by decide)

/-- C2: for every successfully constructed Metric and every `mu` in
`[0, dim)`, the cached entry `geodesic_rhs[mu]` equals, in value, minus the
double sum of `christoffel(mu, rho, sigma) · velocities[rho] ·
velocities[sigma]`, and the sequence was computed eagerly at construction
time: it is exactly the list produced by running `compute_geodesic_rhs` on
`0, .., dim-1`. -/
theorem geodesic_rhs_formula {g : List (List Expression)} {coords : List String}
    {m : Metric} (h : Metric.init g coords = .ok m)
    (mu : Nat) (hmu : mu < m.dim) :
    m.geodesic_rhs.length = m.dim ∧
    (List.range m.dim).mapM (fun (i : Nat) => m.compute_geodesic_rhs (i : Int)) =
      .ok m.geodesic_rhs ∧
    (∀ rho sigma : Nat, rho < m.dim → sigma < m.dim →
      m.compute_christoffel (mu : Int) (rho : Int) (sigma : Int) =
        .ok (christoffelT m (mu : Int) (rho : Int) (sigma : Int))) ∧
    ∀ v : String → ℝ,
      eval v (m.geodesic_rhs.getD mu (.Constant 0)) =
        -∑ rho in Finset.range m.dim, ∑ sigma in Finset.range m.dim,
          eval v (christoffelT m (mu : Int) (rho : Int) (sigma : Int)) *
            eval v (m.velocities.getD rho (.Constant 0)) *
            eval v (m.velocities.getD sigma (.Constant 0)) := by
  have hwf := init_wf h
  have hd := hwf.dim_le
  have hlist := init_ok_geodesics h
  refine ⟨by rw [hlist]; simp, init_ok_mapM h, fun rho sigma hr hs =>
    compute_christoffel_ok m hwf _ _ _ (by omega) (by omega) (by omega)
      (by omega) (by omega) (by omega), ?_⟩
  intro v
  rw [hlist, getD_map_range _ _ _ hmu, eval_geodesicT]

/-- Witness for C2 at the concrete diagonal metric `demoG`. -/
theorem geodesic_rhs_formula_witness :
    demoMetric.geodesic_rhs.length = demoMetric.dim ∧
    (List.range demoMetric.dim).mapM (fun (i : Nat) =>
      demoMetric.compute_geodesic_rhs (i : Int)) = .ok demoMetric.geodesic_rhs ∧
    (∀ rho sigma : Nat, rho < demoMetric.dim → sigma < demoMetric.dim →
      demoMetric.compute_christoffel ((1 : Nat) : Int) (rho : Int) (sigma : Int) =
        .ok (christoffelT demoMetric ((1 : Nat) : Int) (rho : Int) (sigma : Int))) ∧
    ∀ v : String → ℝ,
      eval v (demoMetric.geodesic_rhs.getD 1 (.Constant 0)) =
        -∑ rho in Finset.range demoMetric.dim, ∑ sigma in Finset.range demoMetric.dim,
          eval v (christoffelT demoMetric ((1 : Nat) : Int) (rho : Int) (sigma : Int)) *
            eval v (demoMetric.velocities.getD rho (.Constant 0)) *
            eval v (demoMetric.velocities.getD sigma (.Constant 0)) :=
  geodesic_rhs_formula (show Metric.init demoG demoCoords = .ok demoMetric from rfl)
    1 (by decide)

/-! ### Christoffel symmetry (C4) -/

/-- A non-symmetric but invertible matrix: construction succeeds, yet the
Christoffel symbols are not symmetric in the lower index pair. -/
def cexG : List (List Expression) :=
  [[.Constant 1, .Symbol "x"], [.Constant 0, .Constant 1]]

def cexCoords : List String := ["x", "y"]

/-- Counterexample to C4 as stated: the Metric constructed from the
non-symmetric matrix `cexG` has `christoffel(0,0,1)` and
`christoffel(0,1,0)` differing in value at the point where every symbol
is `0` (the values are `0` and `1/2`). -/
theorem christoffel_symmetry_cex :
    ∃ m e1 e2, Metric.init cexG cexCoords = .ok m ∧
      m.compute_christoffel 0 0 1 = .ok e1 ∧
      m.compute_christoffel 0 1 0 = .ok e2 ∧
      eval (fun _ => 0) e1 ≠ eval (fun _ => 0) e2 := by
  refine ⟨_, _, _, rfl, rfl, rfl, ?_⟩
  norm_num [eval, Real.one_rpow]

/-- C4 amended: for every successfully constructed Metric whose matrix is
symmetric entrywise (as it is for every metric tensor, in particular both
presets), `compute_christoffel(mu, rho, sigma)` and
`compute_christoffel(mu, sigma, rho)` are equal in value.  Without the
symmetry hypothesis the claim fails, see `christoffel_symmetry_cex`. -/
theorem christoffel_symmetric {g : List (List Expression)} {coords : List String}
    {m : Metric} (h : Metric.init g coords = .ok m)
    (hsym : ∀ i j : Nat, i < m.g.length → j < m.g.length →
      entryD m.g i j = entryD m.g j i)
    (mu rho sigma : Nat) (hmu : mu < m.dim) (hrho : rho < m.dim)
    (hsig : sigma < m.dim) :
    ∃ e1 e2, m.compute_christoffel (mu : Int) (rho : Int) (sigma : Int) = .ok e1 ∧
      m.compute_christoffel (mu : Int) (sigma : Int) (rho : Int) = .ok e2 ∧
      ∀ v : String → ℝ, eval v e1 = eval v e2 := by
  have hwf := init_wf h
  have hd := hwf.dim_le
  refine ⟨_, _, compute_christoffel_ok m hwf _ _ _ (by omega) (by omega) (by omega)
      (by omega) (by omega) (by omega),
    compute_christoffel_ok m hwf _ _ _ (by omega) (by omega) (by omega)
      (by omega) (by omega) (by omega), ?_⟩
  intro v
  rw [eval_christoffelT, eval_christoffelT]
  refine Finset.sum_congr rfl fun nu hnu => ?_
  simp only [derivT_ofNat]
  rw [hsym rho sigma (by omega) (by omega)]
  ring

/-- Witness for the amended C4 at the concrete diagonal metric `demoG`. -/
theorem christoffel_symmetric_witness :
    ∃ e1 e2,
      demoMetric.compute_christoffel ((0 : Nat) : Int) ((0 : Nat) : Int)
        ((1 : Nat) : Int) = .ok e1 ∧
      demoMetric.compute_christoffel ((0 : Nat) : Int) ((1 : Nat) : Int)
        ((0 : Nat) : Int) = .ok e2 ∧
      ∀ v : String → ℝ, eval v e1 = eval v e2 :=
  christoffel_symmetric
    (show Metric.init demoG demoCoords = .ok demoMetric from rfl)
    (by
      intro i j hi hj
      have hlen : demoMetric.g.length = 2 := by decide
      have hi2 : i < 2 := by omega
      have hj2 : j < 2 := by omega
      interval_cases i <;> interval_cases j <;> rfl)
    0 0 1 (by decide) (by decide) (by decide)

/-! ### Singular metrics (C6) -/

/-- C6: for every square matrix whose determinant is the zero expression,
construction fails with the singular-matrix error of the inversion step.
The inversion is the first action of the constructor, so no Christoffel
symbol or geodesic right-hand side is produced and no Metric is returned. -/
theorem singular_matrix_fails (g : List (List Expression)) (coords : List String)
    (hsq : isSquare g = true) (hdet : symDet g = .Constant 0) :
    Metric.init g coords = .error .nonInvertible := by
  unfold Metric.init
  rw [show matInv g = .error .nonInvertible by
    unfold matInv; rw [if_neg (by simp [hsq]), if_pos hdet], error_bind]

/-- Witness for C6: the 1×1 zero matrix. -/
theorem singular_matrix_fails_witness :
    Metric.init [[.Constant 0]] ["x"] = .error .nonInvertible :=
  singular_matrix_fails [[.Constant 0]] ["x"] (by decide) (by decide)

/-! ### Error analysis: the only runtime error of the Metric methods is
an out-of-range index -/

theorem bind_err_elim {α β : Type} {x : Except Err α} {f : α → Except Err β}
    {e : Err} (h : (x >>= f) = .error e) :
    x = .error e ∨ ∃ a, x = .ok a ∧ f a = .error e := by
  cases x with
  | error e2 =>
    rw [error_bind] at h
    exact Or.inl (by rw [Except.error.inj h])
  | ok a => exact Or.inr ⟨a, rfl, h⟩

theorem foldlM_err_elim {α σ : Type} {f : σ → α → Except Err σ} {l : List α}
    {e : Err} : ∀ {init : σ}, l.foldlM f init = .error e →
      ∃ acc x, x ∈ l ∧ f acc x = .error e := by
  induction l with
  | nil => intro init h; exact Except.noConfusion h
  | cons a xs ih =>
    intro init h
    rw [List.foldlM_cons] at h
    cases hf : f init a with
    | error e2 =>
      rw [hf, error_bind] at h
      exact ⟨init, a, by simp, by rw [hf, Except.error.inj h]⟩
    | ok b =>
      rw [hf, ok_bind] at h
      obtain ⟨acc, x, hx, hs⟩ := ih h
      exact ⟨acc, x, by simp [hx], hs⟩

theorem mapM_err_elim {α β : Type} {f : α → Except Err β} {l : List α}
    {e : Err} (h : l.mapM f = .error e) : ∃ x ∈ l, f x = .error e := by
  induction l with
  | nil => exact Except.noConfusion h
  | cons a xs ih =>
    rw [List.mapM_cons] at h
    cases hf : f a with
    | error e2 =>
      rw [hf, error_bind] at h
      exact ⟨a, by simp, by rw [hf, Except.error.inj h]⟩
    | ok b =>
      rw [hf, ok_bind] at h
      cases hm : xs.mapM f with
      | error e2 =>
        rw [hm, error_bind] at h
        obtain ⟨x, hx, hs⟩ := ih (by rw [hm, Except.error.inj h])
        exact ⟨x, by simp [hx], hs⟩
      | ok bs => rw [hm, ok_bind] at h; exact Except.noConfusion h

theorem pyGet_err_only {α : Type} {l : List α} {i : Int} {e : Err}
    (h : pyGet l i = .error e) : e = .indexError := by
  unfold pyGet at h
  split at h
  · exact Except.noConfusion h
  · exact (Except.error.inj h).symm

theorem matGet_err_only {α : Type} {g : List (List α)} {i j : Int} {e : Err}
    (h : matGet g i j = .error e) : e = .indexError := by
  unfold matGet at h
  rcases bind_err_elim h with h1 | ⟨row, _, h2⟩
  · exact pyGet_err_only h1
  · exact pyGet_err_only h2

theorem deriv_err_only {m : Metric} {mu nu rho : Int} {e : Err}
    (h : m.deriv mu nu rho = .error e) : e = .indexError := by
  unfold Metric.deriv at h
  rcases bind_err_elim h with h1 | ⟨a, _, h2⟩
  · exact matGet_err_only h1
  · rcases bind_err_elim h2 with h3 | ⟨c, _, h4⟩
    · exact pyGet_err_only h3
    · exact Except.noConfusion h4

theorem compute_christoffel_err_only {m : Metric} {mu rho sigma : Int} {e : Err}
    (h : m.compute_christoffel mu rho sigma = .error e) : e = .indexError := by
  unfold Metric.compute_christoffel at h
  obtain ⟨acc, nu, _, hs⟩ := foldlM_err_elim h
  rcases bind_err_elim hs with h1 | ⟨a, _, h2⟩
  · exact matGet_err_only h1
  rcases bind_err_elim h2 with h1 | ⟨d1, _, h3⟩
  · exact deriv_err_only h1
  rcases bind_err_elim h3 with h1 | ⟨d2, _, h4⟩
  · exact deriv_err_only h1
  rcases bind_err_elim h4 with h1 | ⟨d3, _, h5⟩
  · exact deriv_err_only h1
  · exact Except.noConfusion h5

theorem compute_geodesic_rhs_err_only {m : Metric} {mu : Int} {e : Err}
    (h : m.compute_geodesic_rhs mu = .error e) : e = .indexError := by
  unfold Metric.compute_geodesic_rhs at h
  obtain ⟨acc, rho, _, hs⟩ := foldlM_err_elim h
  obtain ⟨acc2, sigma, _, hs2⟩ := foldlM_err_elim hs
  rcases bind_err_elim hs2 with h1 | ⟨c, _, h2⟩
  · exact compute_christoffel_err_only h1
  rcases bind_err_elim h2 with h1 | ⟨vr, _, h3⟩
  · exact pyGet_err_only h1
  rcases bind_err_elim h3 with h1 | ⟨vs, _, h4⟩
  · exact pyGet_err_only h1
  · exact Except.noConfusion h4

/-- An error raised by the constructor after a successful inversion is an
index error from one of the geodesic computations. -/
theorem init_err_after_inv {g : List (List Expression)} {coords : List String}
    {gi : List (List Expression)} {e : Err} (hinv : matInv g = .ok gi)
    (h : Metric.init g coords = .error e) : e = .indexError := by
  unfold Metric.init at h
  rw [hinv, ok_bind] at h
  dsimp only [] at h
  cases hmap : (List.range coords.length).mapM (fun (i : Nat) =>
      Metric.compute_geodesic_rhs
        ⟨g, gi, coords, coords.length, velocities4, []⟩ (i : Int)) with
  | error e2 =>
    rw [show velocities4 =
        [.Symbol "u0", .Symbol "u1", .Symbol "u2", .Symbol "u3"] from rfl] at hmap
    rw [hmap, error_bind] at h
    obtain ⟨x, _, hx⟩ := mapM_err_elim hmap
    rw [← Except.error.inj h]
    exact compute_geodesic_rhs_err_only hx
  | ok rhs =>
    rw [show velocities4 =
        [.Symbol "u0", .Symbol "u1", .Symbol "u2", .Symbol "u3"] from rfl] at hmap
    rw [hmap, ok_bind] at h
    exact Except.noConfusion h

/-- Index bounds recovered from a successful `compute_christoffel` call
(when there is at least one loop iteration). -/
theorem compute_christoffel_ok_bounds {m : Metric} (hpos : 0 < m.dim)
    {mu rho sigma : Int} {e : Expression}
    (h : m.compute_christoffel mu rho sigma = .ok e) :
    (-(m.g_inv.length : Int) ≤ mu ∧ mu < (m.g_inv.length : Int)) ∧
    (-(m.coordinates.length : Int) ≤ rho ∧ rho < (m.coordinates.length : Int)) ∧
    (-(m.coordinates.length : Int) ≤ sigma ∧ sigma < (m.coordinates.length : Int)) := by
  unfold Metric.compute_christoffel at h
  obtain ⟨acc, y, hy⟩ := foldlM_mem_ok h 0 (List.mem_range.mpr hpos)
  obtain ⟨a, ha, h2⟩ := bind_ok_elim hy
  obtain ⟨d1, hd1, h3⟩ := bind_ok_elim h2
  obtain ⟨d2, hd2, h4⟩ := bind_ok_elim h3
  unfold matGet at ha
  obtain ⟨row, hrow, _⟩ := bind_ok_elim ha
  unfold Metric.deriv at hd1 hd2
  obtain ⟨e1, he1, h5⟩ := bind_ok_elim hd1
  obtain ⟨c1, hc1, _⟩ := bind_ok_elim h5
  obtain ⟨e2, he2, h6⟩ := bind_ok_elim hd2
  obtain ⟨c2, hc2, _⟩ := bind_ok_elim h6
  exact ⟨pyGet_ok_bounds hrow, pyGet_ok_bounds hc2, pyGet_ok_bounds hc1⟩

/-! ### A general success lemma for construction -/

theorem matInv_ok_of {g : List (List Expression)} (hsq : isSquare g = true)
    (hdet : symDet g ≠ .Constant 0) :
    matInv g = .ok ((List.range g.length).map (fun i => (List.range g.length).map
      (fun j => .Mul (adjugateEntry g i j) (.Pow (symDet g) (.Constant (-1)))))) := by
  unfold matInv
  rw [if_neg (by simp [hsq]), if_neg hdet]

theorem init_ok_of_wf_aux (g : List (List Expression)) (coords : List String)
    (gi : List (List Expression)) (hinv : matInv g = .ok gi)
    (hwf0 : WF ⟨g, gi, coords, coords.length, velocities4, []⟩) :
    Metric.init g coords = .ok ⟨g, gi, coords, coords.length, velocities4,
      (List.range coords.length).map (fun (i : Nat) =>
        geodesicT ⟨g, gi, coords, coords.length, velocities4, []⟩ (i : Int))⟩ := by
  unfold Metric.init
  rw [hinv, ok_bind]
  dsimp only []
  rw [show ([.Symbol "u0", .Symbol "u1", .Symbol "u2", .Symbol "u3"] :
    List Expression) = velocities4 from rfl]
  rw [mapM_ok_of_steps _ (fun (i : Nat) =>
      geodesicT ⟨g, gi, coords, coords.length, velocities4, []⟩ (i : Int)) _
    (fun i hi => by
      have h1 := List.mem_range.mp hi
      have h2 : coords.length ≤ g.length := hwf0.dim_le
      refine compute_geodesic_rhs_ok _ hwf0 _ ?_ ?_
      · show -(g.length : Int) ≤ (i : Int)
        omega
      · show (i : Int) < (g.length : Int)
        omega), ok_bind]
  rfl

theorem init_ok_of_bounds (g : List (List Expression)) (coords : List String)
    (hsq : isSquare g = true) (hdet : symDet g ≠ .Constant 0)
    (hlen : coords.length ≤ g.length) (h4 : coords.length ≤ 4) :
    ∃ m, Metric.init g coords = .ok m := by
  refine ⟨_, init_ok_of_wf_aux g coords _ (matInv_ok_of hsq hdet) ?_⟩
  refine ⟨?_, ?_, ?_, rfl, ?_, rfl, ?_⟩
  · show ∀ row ∈ g, row.length = g.length
    exact isSquare_rows hsq
  · show ((List.range g.length).map _).length = g.length
    simp
  · intro row hrow
    obtain ⟨i, _, rfl⟩ := List.mem_map.mp hrow
    simp
  · exact hlen
  · exact h4

/-! ### Dimension mismatch (C5) -/

/-- The 2×2 identity used for the dimension-mismatch counterexample. -/
def mismatchG : List (List Expression) :=
  [[.Constant 1, .Constant 0], [.Constant 0, .Constant 1]]

/-- Counterexample to C5 as stated: a 2×2 matrix with a single coordinate
constructs a Metric successfully — the constructor performs no dimension
check, it simply uses only the leading rows and columns. -/
theorem dimension_mismatch_cex :
    ∃ m, Metric.init mismatchG ["x"] = .ok m ∧ m.dim = 1 ∧ m.g.length = 2 :=
  ⟨_, rfl, rfl, rfl⟩

/-- C5 amended: for a square matrix whose determinant is not the zero
expression, construction fails (with an index error, while looking up an
out-of-range entry) when the coordinate list is longer than the matrix
side; when the coordinate list is no longer than the side (and within the
four velocity slots), construction succeeds and returns a Metric. -/
theorem dimension_mismatch_amended (g : List (List Expression))
    (coords : List String) (hsq : isSquare g = true)
    (hdet : symDet g ≠ .Constant 0) :
    (coords.length ≤ g.length → coords.length ≤ 4 →
      ∃ m, Metric.init g coords = .ok m) ∧
    (g.length < coords.length → Metric.init g coords = .error .indexError) := by
  constructor
  · exact fun h1 h2 => init_ok_of_bounds g coords hsq hdet h1 h2
  · intro hlt
    cases hres : Metric.init g coords with
    | ok m =>
      exfalso
      obtain ⟨_, hg, hc, hd, _, _⟩ := init_ok_elim hres
      have hpos : 0 < m.dim := by omega
      have hb := (init_ok_bounds hres hpos).1
      rw [hd, hg] at hb
      omega
    | error e =>
      rw [init_err_after_inv (matInv_ok_of hsq hdet) hres]

/-- Witness for the amended C5 at the 2×2 identity with three coordinates. -/
theorem dimension_mismatch_amended_witness :
    ((["x", "y", "z"] : List String).length ≤ mismatchG.length →
      (["x", "y", "z"] : List String).length ≤ 4 →
      ∃ m, Metric.init mismatchG ["x", "y", "z"] = .ok m) ∧
    (mismatchG.length < (["x", "y", "z"] : List String).length →
      Metric.init mismatchG ["x", "y", "z"] = .error .indexError) :=
  dimension_mismatch_amended mismatchG ["x", "y", "z"] (by decide) (by decide)

/-! ### Out-of-range index queries (C7) -/

/-- Counterexample to C7 as stated: a negative index does not fail fast;
`christoffel(-1, 0, 0)` on the metric built from `demoG` returns a value
(Python wrap-around indexing), and so does `geodesic_rhs[-1]`. -/
theorem index_out_of_range_cex :
    ∃ m e1 e2, Metric.init demoG demoCoords = .ok m ∧
      m.compute_christoffel (-1) 0 0 = .ok e1 ∧
      pyGet m.geodesic_rhs (-1) = .ok e2 :=
  ⟨_, _, _, rfl, rfl, rfl⟩

/-- C7 amended: for a successfully constructed Metric whose matrix side
equals `dim > 0`, querying `christoffel` or reading `geodesic_rhs` with
an index at least `dim` or below `-dim` fails fast with an index error —
but an index in `[-dim, 0)` does not fail: following Python sequence
semantics it is interpreted as `index + dim` and a value is returned. -/
theorem index_out_of_range_amended {g : List (List Expression)}
    {coords : List String} {m : Metric} (h : Metric.init g coords = .ok m)
    (hside : m.g.length = m.dim) (hpos : 0 < m.dim) :
    (∀ mu rho sigma : Int,
      ((m.dim : Int) ≤ mu ∨ mu < -(m.dim : Int) ∨ (m.dim : Int) ≤ rho ∨
        rho < -(m.dim : Int) ∨ (m.dim : Int) ≤ sigma ∨ sigma < -(m.dim : Int)) →
      m.compute_christoffel mu rho sigma = .error .indexError) ∧
    (∀ mu rho sigma : Int,
      -(m.dim : Int) ≤ mu → mu < (m.dim : Int) →
      -(m.dim : Int) ≤ rho → rho < (m.dim : Int) →
      -(m.dim : Int) ≤ sigma → sigma < (m.dim : Int) →
      ∃ e, m.compute_christoffel mu rho sigma = .ok e) ∧
    (∀ mu : Int, ((m.dim : Int) ≤ mu ∨ mu < -(m.dim : Int)) →
      pyGet m.geodesic_rhs mu = .error .indexError) ∧
    (∀ mu : Int, -(m.dim : Int) ≤ mu → mu < (m.dim : Int) →
      ∃ e, pyGet m.geodesic_rhs mu = .ok e) := by
  have hwf := init_wf h
  have hgil : m.g_inv.length = m.dim := by rw [hwf.gi_len, hside]
  have hcl : m.coordinates.length = m.dim := hwf.coords_len
  have hrhs : m.geodesic_rhs.length = m.dim := by
    rw [init_ok_geodesics h]
    simp
  refine ⟨?_, ?_, ?_, ?_⟩
  · intro mu rho sigma hout
    cases hres : m.compute_christoffel mu rho sigma with
    | ok e =>
      exfalso
      obtain ⟨hbmu, hbrho, hbsig⟩ := compute_christoffel_ok_bounds hpos hres
      rw [hgil] at hbmu
      rw [hcl] at hbrho hbsig
      omega
    | error e =>
      rw [compute_christoffel_err_only hres]
  · intro mu rho sigma h1 h2 h3 h4 h5 h6
    exact ⟨_, compute_christoffel_ok m hwf mu rho sigma
      (by rw [hside]; exact h1) (by rw [hside]; exact h2) h3 h4 h5 h6⟩
  · intro mu hout
    apply pyGet_err
    rw [hrhs]
    omega
  · intro mu h1 h2
    exact ⟨_, pyGet_ok m.geodesic_rhs mu (by rw [hrhs]; exact h1)
      (by rw [hrhs]; exact h2)⟩

/-- Witness for the amended C7 at the metric built from `demoG`. -/
theorem index_out_of_range_amended_witness :
    (∀ mu rho sigma : Int,
      ((demoMetric.dim : Int) ≤ mu ∨ mu < -(demoMetric.dim : Int) ∨
        (demoMetric.dim : Int) ≤ rho ∨ rho < -(demoMetric.dim : Int) ∨
        (demoMetric.dim : Int) ≤ sigma ∨ sigma < -(demoMetric.dim : Int)) →
      demoMetric.compute_christoffel mu rho sigma = .error .indexError) ∧
    (∀ mu rho sigma : Int,
      -(demoMetric.dim : Int) ≤ mu → mu < (demoMetric.dim : Int) →
      -(demoMetric.dim : Int) ≤ rho → rho < (demoMetric.dim : Int) →
      -(demoMetric.dim : Int) ≤ sigma → sigma < (demoMetric.dim : Int) →
      ∃ e, demoMetric.compute_christoffel mu rho sigma = .ok e) ∧
    (∀ mu : Int, ((demoMetric.dim : Int) ≤ mu ∨ mu < -(demoMetric.dim : Int)) →
      pyGet demoMetric.geodesic_rhs mu = .error .indexError) ∧
    (∀ mu : Int, -(demoMetric.dim : Int) ≤ mu → mu < (demoMetric.dim : Int) →
      ∃ e, pyGet demoMetric.geodesic_rhs mu = .ok e) :=
  index_out_of_range_amended
    (show Metric.init demoG demoCoords = .ok demoMetric from rfl)
    (by decide) (by decide)

/-! ### The velocity symbols (C8) -/

/-- Counterexample to C8 as stated: the Metric constructed over a single
coordinate still has four velocity symbols, not one. -/
theorem velocities_fixed_cex :
    ∃ m, Metric.init [[.Constant 1]] ["x"] = .ok m ∧
      m.coordinates.length = 1 ∧ m.velocities.length = 4 :=
  ⟨_, rfl, rfl, rfl⟩

/-- C8 amended: `velocities` is always the fixed ordered list of the four
pairwise-distinct symbols `u0, u1, u2, u3`, independent of the number `n`
of coordinates; construction of a nonempty metric succeeds only for
`n ≤ 4`, and exactly for `n = 4` is there one velocity per coordinate. -/
theorem velocities_fixed {g : List (List Expression)} {coords : List String}
    {m : Metric} (h : Metric.init g coords = .ok m) :
    m.velocities = [.Symbol "u0", .Symbol "u1", .Symbol "u2", .Symbol "u3"] ∧
    m.velocities.Pairwise (· ≠ ·) ∧
    (0 < m.dim → m.dim ≤ 4) ∧
    (m.dim = 4 → m.velocities.length = m.coordinates.length) := by
  obtain ⟨_, _, hc, hd, hv, _⟩ := init_ok_elim h
  refine ⟨hv, ?_, fun hpos => (init_ok_bounds h hpos).2, fun h4 => ?_⟩
  · rw [hv]
    decide
  · rw [hv, hc, ← hd, h4]
    rfl

/-- Witness for the amended C8 at the metric built from `demoG`. -/
theorem velocities_fixed_witness :
    demoMetric.velocities =
      [.Symbol "u0", .Symbol "u1", .Symbol "u2", .Symbol "u3"] ∧
    demoMetric.velocities.Pairwise (· ≠ ·) ∧
    (0 < demoMetric.dim → demoMetric.dim ≤ 4) ∧
    (demoMetric.dim = 4 →
      demoMetric.velocities.length = demoMetric.coordinates.length) :=
  velocities_fixed (show Metric.init demoG demoCoords = .ok demoMetric from rfl)

/-! ### The symbolic determinant and adjugate compute the Mathlib
determinant and adjugate (C3) -/

/-- The real matrix obtained by evaluating an `n × n` symbolic matrix. -/
noncomputable def toMat (g : List (List Expression)) (v : String → ℝ) (n : Nat) :
    Matrix (Fin n) (Fin n) ℝ :=
  fun i j => eval v (entryD g (i : Nat) (j : Nat))

theorem getD_map_eraseIdx (o : Option (List Expression)) (c : Nat) :
    (o.map (fun row => row.eraseIdx c)).getD [] = (o.getD []).eraseIdx c := by
  cases o <;> rfl

theorem getD_eraseIdx_lt {α : Type} (l : List α) (k q : Nat) (d : α) (h : q < k) :
    (l.eraseIdx k).getD q d = l.getD q d := by
  rw [List.getD_eq_getElem?_getD, List.getElem?_eraseIdx, if_pos h,
    ← List.getD_eq_getElem?_getD]

theorem getD_eraseIdx_ge {α : Type} (l : List α) (k q : Nat) (d : α) (h : ¬ q < k) :
    (l.eraseIdx k).getD q d = l.getD (q + 1) d := by
  rw [List.getD_eq_getElem?_getD, List.getElem?_eraseIdx, if_neg h,
    ← List.getD_eq_getElem?_getD]

theorem entryD_minorMat (g : List (List Expression)) (r c p q : Nat) :
    entryD (minorMat g r c) p q =
      entryD g (if p < r then p else p + 1) (if q < c then q else q + 1) := by
  have hrow : (minorMat g r c).getD p [] = ((g.eraseIdx r).getD p []).eraseIdx c := by
    unfold minorMat
    rw [List.getD_eq_getElem?_getD, List.getElem?_map, getD_map_eraseIdx,
      ← List.getD_eq_getElem?_getD]
  unfold entryD
  rw [hrow]
  by_cases hp : p < r <;> by_cases hq : q < c
  · rw [getD_eraseIdx_lt _ _ _ _ hp, getD_eraseIdx_lt _ _ _ _ hq, if_pos hp, if_pos hq]
  · rw [getD_eraseIdx_lt _ _ _ _ hp, getD_eraseIdx_ge _ _ _ _ hq, if_pos hp, if_neg hq]
  · rw [getD_eraseIdx_ge _ _ _ _ hp, getD_eraseIdx_lt _ _ _ _ hq, if_neg hp, if_pos hq]
  · rw [getD_eraseIdx_ge _ _ _ _ hp, getD_eraseIdx_ge _ _ _ _ hq, if_neg hp, if_neg hq]

theorem val_succAbove {n : Nat} (r : Fin (n + 1)) (p : Fin n) :
    ((r.succAbove p : Fin (n + 1)) : Nat) =
      if (p : Nat) < (r : Nat) then (p : Nat) else (p : Nat) + 1 := by
  rcases Nat.lt_or_ge (p : Nat) (r : Nat) with hlt | hge
  · rw [if_pos hlt, Fin.succAbove_of_castSucc_lt r p
      (by rw [Fin.lt_def, Fin.coe_castSucc]; exact hlt), Fin.coe_castSucc]
  · rw [if_neg (by omega), Fin.succAbove_of_le_castSucc r p
      (by rw [Fin.le_def, Fin.coe_castSucc]; exact hge), Fin.val_succ]

theorem toMat_minorMat (g : List (List Expression)) (v : String → ℝ) (n : Nat)
    (r c : Fin (n + 1)) :
    toMat (minorMat g (r : Nat) (c : Nat)) v n =
      (toMat g v (n + 1)).submatrix r.succAbove c.succAbove := by
  funext p q
  unfold toMat
  rw [Matrix.submatrix_apply, entryD_minorMat, val_succAbove, val_succAbove]

theorem eval_foldr_add_aux (v : String → ℝ) (t : Nat → Expression) (l : List Nat)
    (init : Expression) :
    eval v (l.foldr (fun j acc => .Add (t j) acc) init) =
      (l.map (fun j => eval v (t j))).sum + eval v init := by
  induction l with
  | nil => simp
  | cons a xs ih =>
    rw [List.foldr_cons]
    simp only [eval, List.map_cons, List.sum_cons]
    rw [ih]
    ring

theorem list_map_range_sum (f : Nat → ℝ) (n : Nat) :
    ((List.range n).map f).sum = ∑ j in Finset.range n, f j := by
  induction n with
  | zero => simp
  | succ n ih =>
    rw [List.range_succ, List.map_append, List.sum_append, Finset.sum_range_succ, ih]
    simp

theorem symDetF_nil (fuel : Nat) : symDetF fuel [] = .Constant 1 := by
  cases fuel <;> rfl

theorem symDetF_single (fuel : Nat) (r : List Expression) :
    symDetF fuel [r] = r.headD (.Constant 0) := by
  cases fuel <;> rfl

theorem symDetF_eval_zero (v : String → ℝ) (fuel : Nat)
    (g : List (List Expression)) (hlen : g.length = 0) :
    eval v (symDetF fuel g) = (toMat g v 0).det := by
  have hg : g = [] := List.length_eq_zero.mp hlen
  subst hg
  rw [symDetF_nil, Matrix.det_fin_zero]
  simp [eval]

theorem symDetF_eval_one (v : String → ℝ) (fuel : Nat)
    (g : List (List Expression)) (hlen : g.length = 1) :
    eval v (symDetF fuel g) = (toMat g v 1).det := by
  obtain ⟨r, rfl⟩ := List.length_eq_one.mp hlen
  rw [symDetF_single, Matrix.det_fin_one]
  show eval v (r.headD (.Constant 0)) = eval v (entryD [r] 0 0)
  congr 1
  cases r <;> rfl

theorem symDetF_eval (v : String → ℝ) :
    ∀ (fuel n : Nat) (g : List (List Expression)),
      g.length = n → (∀ row ∈ g, row.length = n) → n ≤ fuel + 1 →
      eval v (symDetF fuel g) = (toMat g v n).det := by
  intro fuel
  induction fuel with
  | zero =>
    intro n g hlen hrows hfuel
    have h1 : n ≤ 1 := by omega
    interval_cases n
    · exact symDetF_eval_zero v 0 g hlen
    · exact symDetF_eval_one v 0 g hlen
  | succ fuel ih =>
    intro n g hlen hrows hfuel
    cases g with
    | nil =>
      have hz : n = 0 := by simpa using hlen.symm
      subst hz
      exact symDetF_eval_zero v _ [] rfl
    | cons r0 g1 =>
      cases g1 with
      | nil =>
        have ho : n = 1 := by simpa using hlen.symm
        subst ho
        exact symDetF_eval_one v _ [r0] rfl
      | cons r1 rest =>
        obtain ⟨mm, rfl⟩ : ∃ mm, n = mm + 2 := ⟨rest.length, by simpa using hlen.symm⟩
        have hmm : mm = rest.length := by simpa using hlen.symm
        subst hmm
        have hstep : symDetF (fuel + 1) (r0 :: r1 :: rest) =
            (List.range r0.length).foldr (fun j acc =>
              .Add (.Mul (.Mul (.Constant ((-1 : ℚ) ^ j)) (r0.getD j (.Constant 0)))
                (symDetF fuel (minorCol j (r1 :: rest)))) acc) (.Constant 0) := rfl
        have hfoldr := eval_foldr_add_aux v (fun j =>
          .Mul (.Mul (.Constant ((-1 : ℚ) ^ j)) (r0.getD j (.Constant 0)))
            (symDetF fuel (minorCol j (r1 :: rest))))
          (List.range r0.length) (.Constant 0)
        rw [hstep, hfoldr, list_map_range_sum,
          show eval v (Expression.Constant 0) = 0 by simp [eval], add_zero]
        have hr0 : r0.length = rest.length + 2 := hrows r0 (by simp)
        rw [hr0, Matrix.det_succ_row_zero (toMat (r0 :: r1 :: rest) v (rest.length + 2)),
          ← Fin.sum_univ_eq_sum_range (fun j => eval v
            (.Mul (.Mul (.Constant ((-1 : ℚ) ^ j)) (r0.getD j (.Constant 0)))
              (symDetF fuel (minorCol j (r1 :: rest))))) (rest.length + 2)]
        refine Finset.sum_congr rfl fun j _ => ?_
        have hA0j : (toMat (r0 :: r1 :: rest) v (rest.length + 2)) 0 j =
            eval v (r0.getD (j : Nat) (.Constant 0)) := rfl
        have hminor : eval v (symDetF fuel (minorCol (j : Nat) (r1 :: rest))) =
            ((toMat (r0 :: r1 :: rest) v (rest.length + 2)).submatrix
              Fin.succ j.succAbove).det := by
          have h1 : minorCol (j : Nat) (r1 :: rest) =
              minorMat (r0 :: r1 :: rest) (((0 : Fin (rest.length + 2))) : Nat)
                ((j : Fin (rest.length + 2)) : Nat) := rfl
          rw [h1, ih (rest.length + 1) _ ?_ ?_ ?_]
          · rw [toMat_minorMat (r0 :: r1 :: rest) v (rest.length + 1) 0 j,
              Fin.succAbove_zero]
          · show (minorMat (r0 :: r1 :: rest) 0 (j : Nat)).length = rest.length + 1
            unfold minorMat
            simp [List.eraseIdx]
          · intro row hrow
            unfold minorMat at hrow
            obtain ⟨row', hrow', rfl⟩ := List.mem_map.mp hrow
            have hmem : row' ∈ (r0 :: r1 :: rest) := List.mem_of_mem_eraseIdx hrow'
            have hlen' : row'.length = rest.length + 2 := hrows row' hmem
            rw [List.length_eraseIdx_of_lt (by omega)]
            omega
          · omega
        simp only [eval]
        rw [hminor, hA0j]
        push_cast
        ring

/-- The determinant expression evaluates to the Mathlib determinant. -/
theorem symDet_eval (v : String → ℝ) (n : Nat) (g : List (List Expression))
    (hlen : g.length = n) (hrows : ∀ row ∈ g, row.length = n) :
    eval v (symDet g) = (toMat g v n).det := by
  unfold symDet
  rw [hlen]
  exact symDetF_eval v n n g hlen hrows (by omega)

/-- The adjugate-entry expression evaluates to the Mathlib adjugate. -/
theorem adjugateEntry_eval (v : String → ℝ) (n : Nat) (g : List (List Expression))
    (hlen : g.length = n + 1) (hrows : ∀ row ∈ g, row.length = n + 1)
    (i j : Fin (n + 1)) :
    eval v (adjugateEntry g (i : Nat) (j : Nat)) =
      Matrix.adjugate (toMat g v (n + 1)) i j := by
  unfold adjugateEntry
  rw [Matrix.adjugate_fin_succ_eq_det_submatrix]
  have hminor_len : (minorMat g (j : Nat) (i : Nat)).length = n := by
    unfold minorMat
    rw [List.length_map, List.length_eraseIdx_of_lt (by omega)]
    omega
  have hminor_rows : ∀ row ∈ minorMat g (j : Nat) (i : Nat), row.length = n := by
    intro row hrow
    unfold minorMat at hrow
    obtain ⟨row', hrow', rfl⟩ := List.mem_map.mp hrow
    have hmem : row' ∈ g := List.mem_of_mem_eraseIdx hrow'
    have hlen' : row'.length = n + 1 := hrows row' hmem
    rw [List.length_eraseIdx_of_lt (by omega)]
    omega
  have hd := symDet_eval v n (minorMat g (j : Nat) (i : Nat)) hminor_len hminor_rows
  simp only [eval]
  rw [hd, toMat_minorMat g v n j i]
  push_cast
  rw [Nat.add_comm (i : Nat) (j : Nat)]

theorem eval_pow_neg_one (v : String → ℝ) (b : Expression) :
    eval v (.Pow b (.Constant (-1))) = (eval v b)⁻¹ := by
  show Real.rpow (eval v b) ((-1 : ℚ) : ℝ) = (eval v b)⁻¹
  rw [show ((-1 : ℚ) : ℝ) = -1 by norm_num]
  exact Real.rpow_neg_one (eval v b)

/-- C3: for every successfully constructed Metric, `g_inv` is the
two-sided inverse of `g`: summing `g[i,k] · g_inv[k,j]` (and
`g_inv[i,k] · g[k,j]`) over all columns `k` of the matrix gives `1` when
`i = j` and `0` otherwise, in value, at every point of the invertible
domain (every assignment at which the determinant expression does not
vanish). -/
theorem ginv_two_sided_inverse {g : List (List Expression)}
    {coords : List String} {m : Metric} (h : Metric.init g coords = .ok m)
    (i j : Nat) (hi : i < m.dim) (hj : j < m.dim) (v : String → ℝ)
    (hv : eval v (symDet m.g) ≠ 0) :
    (∑ k in Finset.range m.g.length,
        eval v (entryD m.g i k) * eval v (entryD m.g_inv k j)) =
      (if i = j then 1 else 0) ∧
    (∑ k in Finset.range m.g.length,
        eval v (entryD m.g_inv i k) * eval v (entryD m.g k j)) =
      (if i = j then 1 else 0) := by
  obtain ⟨hinv, hgg, _, _, _, _⟩ := init_ok_elim h
  subst hgg
  obtain ⟨hsq, hdet0, hgi⟩ := matInv_ok_elim hinv
  have hwf := init_wf h
  have hpos : 0 < m.g.length := by
    have := hwf.dim_le
    omega
  obtain ⟨n, hn⟩ : ∃ n, m.g.length = n + 1 := ⟨m.g.length - 1, by omega⟩
  have hrows : ∀ row ∈ m.g, row.length = n + 1 := by
    intro row hrow
    rw [← hn]
    exact hwf.sq row hrow
  have hdetv : eval v (symDet m.g) = (toMat m.g v (n + 1)).det :=
    symDet_eval v (n + 1) m.g hn hrows
  have hAdet : (toMat m.g v (n + 1)).det ≠ 0 := by rw [← hdetv]; exact hv
  have hi' : i < n + 1 := by
    have := hwf.dim_le
    omega
  have hj' : j < n + 1 := by
    have := hwf.dim_le
    omega
  have hentry : ∀ (k l : Nat) (hk : k < n + 1) (hl : l < n + 1),
      eval v (entryD m.g_inv k l) =
        Matrix.adjugate (toMat m.g v (n + 1)) ⟨k, hk⟩ ⟨l, hl⟩ *
          ((toMat m.g v (n + 1)).det)⁻¹ := by
    intro k l hk hl
    rw [hgi]
    unfold entryD
    rw [getD_map_range _ _ _ (by omega) [], getD_map_range _ _ _ (by omega)
      (Expression.Constant 0)]
    rw [show eval v (Expression.Mul (adjugateEntry m.g k l)
        (.Pow (symDet m.g) (.Constant (-1)))) =
      eval v (adjugateEntry m.g k l) *
        eval v (.Pow (symDet m.g) (.Constant (-1))) from rfl]
    rw [eval_pow_neg_one, adjugateEntry_eval v n m.g hn hrows ⟨k, hk⟩ ⟨l, hl⟩, hdetv]
  have hAapp : ∀ (p q : Nat) (hp : p < n + 1) (hq : q < n + 1),
      eval v (entryD m.g p q) = toMat m.g v (n + 1) ⟨p, hp⟩ ⟨q, hq⟩ :=
    fun p q hp hq => rfl
  constructor
  · rw [hn, ← Fin.sum_univ_eq_sum_range (fun k =>
      eval v (entryD m.g i k) * eval v (entryD m.g_inv k j)) (n + 1)]
    have hterm : ∀ k : Fin (n + 1),
        eval v (entryD m.g i (k : Nat)) * eval v (entryD m.g_inv (k : Nat) j) =
          toMat m.g v (n + 1) ⟨i, hi'⟩ k *
            Matrix.adjugate (toMat m.g v (n + 1)) k ⟨j, hj'⟩ *
            ((toMat m.g v (n + 1)).det)⁻¹ := by
      intro k
      rw [hentry (k : Nat) j k.isLt hj', hAapp i (k : Nat) hi' k.isLt]
      simp only [Fin.eta]
      ring
    rw [Finset.sum_congr rfl (fun k _ => hterm k), ← Finset.sum_mul,
      show (∑ k : Fin (n + 1), toMat m.g v (n + 1) ⟨i, hi'⟩ k *
          Matrix.adjugate (toMat m.g v (n + 1)) k ⟨j, hj'⟩) =
        (toMat m.g v (n + 1) * Matrix.adjugate (toMat m.g v (n + 1)))
          ⟨i, hi'⟩ ⟨j, hj'⟩ from (Matrix.mul_apply).symm,
      Matrix.mul_adjugate, Matrix.smul_apply, Matrix.one_apply, smul_eq_mul]
    by_cases hij : i = j
    · subst hij
      rw [if_pos rfl, if_pos rfl, mul_one, mul_inv_cancel₀ hAdet]
    · rw [if_neg (by simp [Fin.mk.injEq, hij]), if_neg hij, mul_zero, zero_mul]
  · rw [hn, ← Fin.sum_univ_eq_sum_range (fun k =>
      eval v (entryD m.g_inv i k) * eval v (entryD m.g k j)) (n + 1)]
    have hterm : ∀ k : Fin (n + 1),
        eval v (entryD m.g_inv i (k : Nat)) * eval v (entryD m.g (k : Nat) j) =
          Matrix.adjugate (toMat m.g v (n + 1)) ⟨i, hi'⟩ k *
            toMat m.g v (n + 1) k ⟨j, hj'⟩ *
            ((toMat m.g v (n + 1)).det)⁻¹ := by
      intro k
      rw [hentry i (k : Nat) hi' k.isLt, hAapp (k : Nat) j k.isLt hj']
      simp only [Fin.eta]
      ring
    rw [Finset.sum_congr rfl (fun k _ => hterm k), ← Finset.sum_mul,
      show (∑ k : Fin (n + 1), Matrix.adjugate (toMat m.g v (n + 1)) ⟨i, hi'⟩ k *
          toMat m.g v (n + 1) k ⟨j, hj'⟩) =
        (Matrix.adjugate (toMat m.g v (n + 1)) * toMat m.g v (n + 1))
          ⟨i, hi'⟩ ⟨j, hj'⟩ from (Matrix.mul_apply).symm,
      Matrix.adjugate_mul, Matrix.smul_apply, Matrix.one_apply, smul_eq_mul]
    by_cases hij : i = j
    · subst hij
      rw [if_pos rfl, if_pos rfl, mul_one, mul_inv_cancel₀ hAdet]
    · rw [if_neg (by simp [Fin.mk.injEq, hij]), if_neg hij, mul_zero, zero_mul]

/-- Witness for C3 at the metric built from `demoG`, at the assignment
sending every symbol to `1` (where the determinant evaluates to `1`). -/
theorem ginv_two_sided_inverse_witness :
    (∑ k in Finset.range demoMetric.g.length,
        eval (fun _ => 1) (entryD demoMetric.g 1 k) *
          eval (fun _ => 1) (entryD demoMetric.g_inv k 1)) =
      (if (1 : Nat) = 1 then 1 else 0) ∧
    (∑ k in Finset.range demoMetric.g.length,
        eval (fun _ => 1) (entryD demoMetric.g_inv 1 k) *
          eval (fun _ => 1) (entryD demoMetric.g k 1)) =
      (if (1 : Nat) = 1 then 1 else 0) :=
  ginv_two_sided_inverse
    (show Metric.init demoG demoCoords = .ok demoMetric from rfl)
    1 1 (by decide) (by decide) (fun _ => 1)
    (by
      rw [show symDet demoMetric.g =
        .Add (.Mul (.Mul (.Constant 1) (.Constant 1)) (.Symbol "x"))
          (.Add (.Mul (.Mul (.Constant (-1)) (.Constant 0)) (.Constant 0))
            (.Constant 0)) from rfl]
      norm_num [eval])

/-! ### The metric registry (C9, C10) -/

/-- C9: `lookup("kerr")` and `lookup("schwarzschild")` both succeed and
return a Metric with `dim = 4`, coordinates `[t, r, theta, phi]`, and the
free-symbol lists `[t, r, theta, phi, M, a]` and `[t, r, theta, phi, M]`
respectively. -/
theorem registry_roundtrip :
    (∃ mk, getMetric "kerr" =
        .ok (mk, [.Symbol "t", .Symbol "r", .Symbol "theta", .Symbol "phi",
          .Symbol "M", .Symbol "a"]) ∧
      mk.dim = 4 ∧ mk.coordinates = ["t", "r", "theta", "phi"]) ∧
    (∃ ms, getMetric "schwarzschild" =
        .ok (ms, [.Symbol "t", .Symbol "r", .Symbol "theta", .Symbol "phi",
          .Symbol "M"]) ∧
      ms.dim = 4 ∧ ms.coordinates = ["t", "r", "theta", "phi"]) := by
  obtain ⟨mk, hk⟩ := init_ok_of_bounds kerrMatrix coordinates4
    (by decide) (by decide) (by decide) (by decide)
  obtain ⟨ms, hs⟩ := init_ok_of_bounds schwarzschildMatrix coordinates4
    (by decide) (by decide) (by decide) (by decide)
  have hkd := init_ok_elim hk
  have hsd := init_ok_elim hs
  constructor
  · refine ⟨mk, ?_, ?_, ?_⟩
    · unfold getMetric getMetricWith
      rw [hk, ok_bind, hs, ok_bind]
      rfl
    · rw [hkd.2.2.2.1]
      rfl
    · rw [hkd.2.2.1]
      rfl
  · refine ⟨ms, ?_, ?_, ?_⟩
    · unfold getMetric getMetricWith
      rw [hk, ok_bind, hs, ok_bind]
      rfl
    · rw [hsd.2.2.2.1]
      rfl
    · rw [hsd.2.2.1]
      rfl

/-- C10: `getMetric` constructs both presets before the name is consulted:
`getMetric` is the name lookup run after both `Metric.init` calls; both
calls succeed; any other name yields the dictionary `KeyError` (after the
constructions); and had either construction failed, every lookup would
fail with that construction's error, whatever the name. -/
theorem registry_eager_construction :
    (∀ name : String,
      getMetric name = getMetricWith kerrMatrix schwarzschildMatrix name) ∧
    (∃ mk, Metric.init kerrMatrix coordinates4 = .ok mk) ∧
    (∃ ms, Metric.init schwarzschildMatrix coordinates4 = .ok ms) ∧
    (∀ name : String, name ≠ "kerr" → name ≠ "schwarzschild" →
      getMetric name = .error .keyError) ∧
    (∀ (g1 g2 : List (List Expression)) (e : Err) (name : String),
      Metric.init g1 coordinates4 = .error e →
      getMetricWith g1 g2 name = .error e) ∧
    (∀ (g1 g2 : List (List Expression)) (m1 : Metric) (e : Err) (name : String),
      Metric.init g1 coordinates4 = .ok m1 →
      Metric.init g2 coordinates4 = .error e →
      getMetricWith g1 g2 name = .error e) := by
  obtain ⟨mk, hk⟩ := init_ok_of_bounds kerrMatrix coordinates4
    (by decide) (by decide) (by decide) (by decide)
  obtain ⟨ms, hs⟩ := init_ok_of_bounds schwarzschildMatrix coordinates4
    (by decide) (by decide) (by decide) (by decide)
  refine ⟨fun name => rfl, ⟨mk, hk⟩, ⟨ms, hs⟩, ?_, ?_, ?_⟩
  · intro name h1 h2
    unfold getMetric getMetricWith
    rw [hk, ok_bind, hs, ok_bind, if_neg h1, if_neg h2]
  · intro g1 g2 e name herr
    unfold getMetricWith
    rw [herr, error_bind]
  · intro g1 g2 m1 e name hok herr
    unfold getMetricWith
    rw [hok, ok_bind, herr, error_bind]

/-- Witness for C10: an unknown name raises the key error, and a failing
construction (here a ragged non-square matrix) in either slot makes the
lookup fail with that error even for the recognized name. -/
theorem registry_eager_construction_witness :
    getMetric "minkowski" = .error .keyError ∧
    getMetricWith [[]] schwarzschildMatrix "kerr" = .error .nonSquare ∧
    getMetricWith kerrMatrix [[]] "kerr" = .error .nonSquare := by
  obtain ⟨h0, ⟨mk, hk⟩, ⟨ms, hs⟩, h3, h4, h5⟩ := registry_eager_construction
  refine ⟨h3 "minkowski" (by decide) (by decide), ?_, ?_⟩
  · exact h4 [[]] schwarzschildMatrix .nonSquare "kerr" (by rfl)
  · exact h5 kerrMatrix [[]] mk .nonSquare "kerr" hk (by rfl)

end GeodesicEOM
